import Mathlib

/-!
Verification development for the metalize repository: a reader of relational
database structure (tables, columns, keys, indexes, foreign keys, check
constraints, sequences) normalized into a dialect-independent model.

The repository fragment visible under src/ consists of the TypeScript type
contract (src/types/index.d.ts) and the shared test module
(src/unnamed/part_000). The dialect adapters and the metadata aggregator
(lib/) are not part of src/, so those components are modelled here from the
specification; definitions embedding such components carry a doc comment
starting with "Modelled from the spec:". Everything else is embedded
directly from the visible source.
-/

namespace Metalize

/-- The dialect configuration option, from src/types/index.d.ts line 8:
a closed union of exactly two values. -/
inductive Dialect
  | postgres
  | mysql
deriving DecidableEq, Repr

/-- The canonical referential-action set, from src/types/index.d.ts line 21. -/
inductive ActionType
  | cascade
  | restrict
  | noAction
deriving DecidableEq, Repr

/-- Foreign-key match type (FULL, PARTIAL, SIMPLE), from
src/types/index.d.ts line 26. -/
inductive MatchType
  | full
  | partialMatch
  | simple
deriving DecidableEq, Repr

/-- Reference target of a foreign key, from src/types/index.d.ts lines 16-19. -/
structure Reference where
  table : String
  columns : List String
deriving DecidableEq, Repr

/-- A normalized foreign key, from src/types/index.d.ts lines 23-30.
The field named match in the source is renamed matchType, since match is a
reserved word here. -/
structure ForeignKey where
  name : String
  columns : List String
  matchType : MatchType
  onDelete : ActionType
  onUpdate : ActionType
  references : Reference
deriving DecidableEq, Repr

/-- The normalized type descriptor carried by a Column as its details field,
exercised by the test at src/unnamed/part_000 lines 96-109: a base type name
plus either nothing, a length, or a precision and scale. -/
structure TypeDetails where
  type : String
  length : Option Nat := none
  precision : Option Nat := none
  scale : Option Nat := none
deriving DecidableEq, Repr

/-- Normalized sequence metadata, from src/types/index.d.ts lines 49-55: the
numeric bounds are represented as strings, cycle as a boolean. -/
structure SequenceMetadata where
  start : String
  min : String
  max : String
  increment : String
  cycle : Bool
deriving DecidableEq, Repr

/-- A normalized column, from src/types/index.d.ts lines 36-42 together with
the details field the test observes at src/unnamed/part_000 lines 96-109. -/
structure Column where
  name : String
  type : String
  details : TypeDetails
  nullable : Bool
  default : Option String
deriving DecidableEq, Repr

/-- A normalized index, from src/types/index.d.ts lines 44-47. -/
structure Index where
  name : String
  columns : List String
deriving DecidableEq, Repr

/-- A normalized check constraint, from src/types/index.d.ts lines 57-60. -/
structure Check where
  name : String
  condition : String
deriving DecidableEq, Repr

/-- Table metadata, from src/types/index.d.ts lines 62-69. The primary key
is optional (a table may lack one) and checks is optional as a whole: absent
entirely for dialects without native check-constraint catalogs. -/
structure TableMetadata where
  columns : List Column
  primaryKey : Option Index
  unique : List Index
  indexes : List Index
  foreignKeys : List ForeignKey
  checks : Option (List Check)
deriving DecidableEq, Repr

/-- Read options, from src/types/index.d.ts lines 71-74; an omitted field is
the empty list. -/
structure ReadOptions where
  tables : List String := []
  sequences : List String := []
deriving DecidableEq, Repr

/-- Read result, from src/types/index.d.ts lines 76-81: two mappings whose
value type is explicitly absent-capable, modelled as association lists. -/
structure ReadResult where
  tables : List (String × Option TableMetadata)
  sequences : List (String × Option SequenceMetadata)
deriving DecidableEq, Repr

/-- Association-list lookup used for the ReadResult mappings. -/
def lookupName {β : Type} (n : String) : List (String × β) → Option β
  | [] => none
  | p :: rest => if p.1 = n then some p.2 else lookupName n rest

/-! ### Raw catalog rows

Modelled from the spec: the Catalog Query Set (not in src/) returns raw rows
per entity kind, with stable ordinal fields for column and key-part order. -/

/-- Modelled from the spec: one raw catalog row describing a column, with
the separate length / precision / scale fields a dialect catalog may
report. -/
structure RawColumnRow where
  name : String
  ordinal : Nat
  dataType : String
  charMaxLength : Option Nat
  numericPrecision : Option Nat
  numericScale : Option Nat
  isNullable : Bool
  columnDefault : Option String
deriving DecidableEq, Repr

/-- Modelled from the spec: one raw catalog row for one key part of an
index or unique or primary-key constraint. -/
structure RawIndexRow where
  ordinal : Nat
  column : String
deriving DecidableEq, Repr

/-- Modelled from the spec: one raw catalog row for one key part of a
foreign-key constraint, carrying the raw match and action codes. -/
structure RawForeignKeyRow where
  ordinal : Nat
  column : String
  refTable : String
  refColumn : String
  matchCode : String
  updateCode : String
  deleteCode : String
deriving DecidableEq, Repr

/-- Modelled from the spec: one raw catalog row for a check constraint. -/
structure RawCheckRow where
  name : String
  condition : String
deriving DecidableEq, Repr

/-- Modelled from the spec: the raw catalog row for a sequence; the catalog
holds numeric bounds, which normalization renders as strings. -/
structure RawSequenceRow where
  startValue : Int
  minValue : Int
  maxValue : Int
  incrementBy : Int
  cycle : Bool
deriving DecidableEq, Repr

/-- Modelled from the spec: the database as seen through the Catalog Query
Set, one accessor per entity kind, rows grouped per constraint where the
catalog groups them. -/
structure Database where
  columnRows : String → List RawColumnRow
  primaryKey : String → Option (String × List RawIndexRow)
  uniqueGroups : String → List (String × List RawIndexRow)
  indexGroups : String → List (String × List RawIndexRow)
  foreignKeyGroups : String → List (String × List RawForeignKeyRow)
  checkRows : String → List RawCheckRow
  sequenceRow : String → Option RawSequenceRow

/-- The column names a table declares in the catalog. -/
def colNames (db : Database) (t : String) : List String :=
  (db.columnRows t).map RawColumnRow.name

/-- The raw key-part rows of the primary key of a table, empty when the
table has none. -/
def pkRows (db : Database) (t : String) : List RawIndexRow :=
  ((db.primaryKey t).map Prod.snd).getD []

/-! ### Ordering by catalog ordinals -/

/-- Comparison of raw rows by an ordinal key. -/
def ordinalLe {α : Type} (key : α → Nat) (a b : α) : Prop :=
  key a ≤ key b

instance {α : Type} (key : α → Nat) : DecidableRel (ordinalLe key) :=
  fun a b => Nat.decLe (key a) (key b)

instance {α : Type} (key : α → Nat) : IsTotal α (ordinalLe key) :=
  ⟨fun a b => Nat.le_total (key a) (key b)⟩

instance {α : Type} (key : α → Nat) : IsTrans α (ordinalLe key) :=
  ⟨fun _ _ _ h h2 => Nat.le_trans h h2⟩

/-- Sort raw rows by their catalog ordinal (column ordinal position or
key-sequence position), as the Aggregator does defensively. -/
def sortByKey {α : Type} (key : α → Nat) (l : List α) : List α :=
  List.insertionSort (ordinalLe key) l

/-! ### Dialect adapter -/

/-- Modelled from the spec: whether the dialect has a native check-constraint
catalog; the test only inspects checks when the dialect is postgres. -/
def checkSupport : Dialect → Bool
  | Dialect.postgres => true
  | Dialect.mysql => false

/-- Modelled from the spec: the mapping from the native referential-action
encoding of each dialect to the canonical set; an unrecognized raw code
is a catalog-assumption error and fails fast instead of being defaulted. -/
def parseAction (d : Dialect) (raw : String) : Except String ActionType :=
  match d with
  | Dialect.postgres =>
    if raw = "c" then Except.ok ActionType.cascade
    else if raw = "r" then Except.ok ActionType.restrict
    else if raw = "a" then Except.ok ActionType.noAction
    else Except.error ("unrecognized referential action code: " ++ raw)
  | Dialect.mysql =>
    if raw = "CASCADE" then Except.ok ActionType.cascade
    else if raw = "RESTRICT" then Except.ok ActionType.restrict
    else if raw = "NO ACTION" then Except.ok ActionType.noAction
    else Except.error ("unrecognized referential action code: " ++ raw)

/-- The raw referential-action codes each dialect adapter recognizes. -/
def recognizedActionCodes : Dialect → List String
  | Dialect.postgres => ["c", "r", "a"]
  | Dialect.mysql => ["CASCADE", "RESTRICT", "NO ACTION"]

/-- Modelled from the spec: the match-type mapping, defaulting to SIMPLE
where the dialect does not distinguish. -/
def parseMatch (raw : String) : MatchType :=
  if raw = "f" then MatchType.full
  else if raw = "p" then MatchType.partialMatch
  else MatchType.simple

/-- Modelled from the spec: the Type Descriptor Parser. A non-null length
field takes precedence; otherwise a present precision yields the
precision-and-scale form; absence of both yields the bare type. Total over
every type name: unrecognized names pass through verbatim. -/
def parseColumnType (r : RawColumnRow) : TypeDetails :=
  match r.charMaxLength with
  | some l => { type := r.dataType, length := some l }
  | none =>
    match r.numericPrecision with
    | some p =>
      { type := r.dataType, precision := some p, scale := some (r.numericScale.getD 0) }
    | none => { type := r.dataType }

/-- Modelled from the spec: raw-to-normalized mapping for one column row. -/
def parseColumn (r : RawColumnRow) : Column :=
  { name := r.name
    type := r.dataType
    details := parseColumnType r
    nullable := r.isNullable
    default := r.columnDefault }

/-- Modelled from the spec: raw-to-normalized mapping for one check row. -/
def parseCheck (r : RawCheckRow) : Check :=
  { name := r.name, condition := r.condition }

/-- Modelled from the spec: raw-to-normalized mapping for a sequence row;
every numeric bound is rendered as a decimal string to avoid precision
loss. -/
def parseSequence (r : RawSequenceRow) : SequenceMetadata :=
  { start := toString r.startValue
    min := toString r.minValue
    max := toString r.maxValue
    increment := toString r.incrementBy
    cycle := r.cycle }

/-! ### Metadata aggregator -/

/-- Modelled from the spec: assemble one index from its grouped key-part
rows, ordered by key-sequence ordinal. -/
def assembleIndex (g : String × List RawIndexRow) : Index :=
  { name := g.1
    columns := (sortByKey RawIndexRow.ordinal g.2).map RawIndexRow.column }

/-- Modelled from the spec: assemble the index list of an entity kind,
one index per non-empty row group. -/
def assembleIndexes (gs : List (String × List RawIndexRow)) : List Index :=
  (gs.filter (fun g => ! g.2.isEmpty)).map assembleIndex

/-- Modelled from the spec: the primary key, when the catalog reports one
with at least one key part. -/
def assemblePrimaryKey : Option (String × List RawIndexRow) → Option Index
  | none => none
  | some p => if p.2.isEmpty then none else some (assembleIndex p)

/-- Modelled from the spec: assemble one foreign key from its key-part rows
already sorted by key-sequence ordinal; raw action codes are parsed
fatally. -/
def assembleForeignKeySorted (d : Dialect) (cname : String) :
    List RawForeignKeyRow → Except String ForeignKey
  | [] => Except.error ("foreign key constraint without columns: " ++ cname)
  | first :: rest =>
    match parseAction d first.updateCode, parseAction d first.deleteCode with
    | Except.ok onU, Except.ok onD =>
      Except.ok
        { name := cname
          columns := (first :: rest).map RawForeignKeyRow.column
          matchType := parseMatch first.matchCode
          onDelete := onD
          onUpdate := onU
          references :=
            { table := first.refTable
              columns := (first :: rest).map RawForeignKeyRow.refColumn } }
    | Except.error e, _ => Except.error e
    | _, Except.error e => Except.error e

/-- Modelled from the spec: assemble one foreign key from its grouped
key-part rows. Source and referenced columns are both taken from the rows
sorted by key-sequence ordinal, so position i of columns corresponds to
position i of references.columns. -/
def assembleForeignKey (d : Dialect) (cname : String)
    (rows : List RawForeignKeyRow) : Except String ForeignKey :=
  assembleForeignKeySorted d cname (sortByKey RawForeignKeyRow.ordinal rows)

/-- Modelled from the spec: assemble every foreign key of a table, one per
non-empty row group; the first fatal parse error aborts. -/
def assembleForeignKeys (d : Dialect) :
    List (String × List RawForeignKeyRow) → Except String (List ForeignKey)
  | [] => Except.ok []
  | g :: gs =>
    if g.2.isEmpty then assembleForeignKeys d gs
    else
      match assembleForeignKey d g.1 g.2, assembleForeignKeys d gs with
      | Except.ok fk, Except.ok rest => Except.ok (fk :: rest)
      | Except.error e, _ => Except.error e
      | _, Except.error e => Except.error e

/-- Modelled from the spec: merge the raw rows of one existing table into
its TableMetadata; checks appear only under a dialect with native check
support, and a fatal action-parse error aborts the whole assembly. -/
def assembleTable (d : Dialect) (db : Database) (t : String) :
    Except String TableMetadata :=
  match assembleForeignKeys d (db.foreignKeyGroups t) with
  | Except.error e => Except.error e
  | Except.ok fks =>
    Except.ok
      { columns := (sortByKey RawColumnRow.ordinal (db.columnRows t)).map parseColumn
        primaryKey := assemblePrimaryKey (db.primaryKey t)
        unique := assembleIndexes (db.uniqueGroups t)
        indexes := assembleIndexes (db.indexGroups t)
        foreignKeys := fks
        checks := if checkSupport d then some ((db.checkRows t).map parseCheck) else none }

/-- Modelled from the spec: read one requested table; a table absent from
the columns result short-circuits to an absent value without issuing the
remaining queries. -/
def readTable (d : Dialect) (db : Database) (t : String) :
    Except String (Option TableMetadata) :=
  if (db.columnRows t).isEmpty then Except.ok none
  else
    match assembleTable d db t with
    | Except.ok tm => Except.ok (some tm)
    | Except.error e => Except.error e

/-- Modelled from the spec: build the tables mapping in request order; any
fatal error aborts the entire read. -/
def readTablesList (d : Dialect) (db : Database) :
    List String → Except String (List (String × Option TableMetadata))
  | [] => Except.ok []
  | n :: rest =>
    match readTable d db n, readTablesList d db rest with
    | Except.ok tm, Except.ok tail => Except.ok ((n, tm) :: tail)
    | Except.error e, _ => Except.error e
    | _, Except.error e => Except.error e

/-- Modelled from the spec: build the sequences mapping in request order. -/
def readSequencesList (db : Database) (names : List String) :
    List (String × Option SequenceMetadata) :=
  names.map (fun n => (n, (db.sequenceRow n).map parseSequence))

/-- Modelled from the spec: the Metadata Aggregator entry point
read(options) producing a ReadResult. -/
def read (d : Dialect) (db : Database) (opts : ReadOptions) :
    Except String ReadResult :=
  match readTablesList d db opts.tables with
  | Except.error e => Except.error e
  | Except.ok ts =>
    Except.ok { tables := ts, sequences := readSequencesList db opts.sequences }

/-! ### Connection session -/

/-- Modelled from the spec: the Connection Session, reduced to its lifecycle
state; ending an ended session fails, as does querying one. -/
structure Session where
  closed : Bool
deriving DecidableEq, Repr

/-- Modelled from the spec: endConnection releases the session; it is
single-use, a second call fails. -/
def Session.endConnection (s : Session) : Except String Session :=
  if s.closed then Except.error "Connection already ended"
  else Except.ok { closed := true }

/-- Modelled from the spec: query execution on the session; after
endConnection it fails deterministically with a closed-session error. -/
def Session.query (s : Session) : Except String Unit :=
  if s.closed then Except.error "Closed session" else Except.ok ()

/-! ### Facts embedded directly from src/ -/

/-- The method names the Metalize class declares, from
src/types/index.d.ts lines 83-89: constructor, read, end. -/
def metalizeDeclaredMethods : List String :=
  ["constructor", "read", "end"]

/-- The Metalize methods the repository test module invokes, from
src/unnamed/part_000 (lines 85, 143 and 158). -/
def metalizeMethodsUsedInTests : List String :=
  ["read", "endConnection"]

/-- Modelled from the spec: escape an embedded double-quote character by
doubling it. -/
def escapeQuotes (s : String) : String :=
  String.join (s.toList.map (fun c => if c.toNat = 34 then "\"\"" else String.singleton c))

/-- Modelled from the spec: the postgres identifier quoting rule, quoting
the schema and object parts independently (helpers.quoteObjectName, whose
body is not in src/). -/
def quoteObjectName (n : String) : String :=
  String.intercalate "." ((n.splitOn ".").map (fun p => "\"" ++ escapeQuotes p ++ "\""))

/-- The quoting function the test setup selects, from
src/unnamed/part_000 lines 28-29: quoteObjectName exactly when the dialect
is postgres, the identity on strings otherwise. -/
def setupQuote (d : Dialect) : String → String :=
  if d = Dialect.postgres then quoteObjectName else fun n => n

/-! ### Concrete fixture databases mirroring the test setup -/

/-- A database with no objects at all. -/
def emptyDb : Database :=
  { columnRows := fun _ => []
    primaryKey := fun _ => none
    uniqueGroups := fun _ => []
    indexGroups := fun _ => []
    foreignKeyGroups := fun _ => []
    checkRows := fun _ => []
    sequenceRow := fun _ => none }

/-- The catalog state produced by the test fixture DDL of
src/unnamed/part_000 lines 49-75 and 130-141, as a postgres catalog would
report it: the metalize_users table with its primary key, unique
constraint, index, foreign key, check constraint, and the fixture
sequence. -/
def usersDb : Database :=
  { columnRows := fun t =>
      if t = "metalize_users" then
        [{ name := "id", ordinal := 1, dataType := "bigint", charMaxLength := none,
           numericPrecision := none, numericScale := none, isNullable := false,
           columnDefault := none },
         { name := "name", ordinal := 2, dataType := "character varying",
           charMaxLength := some 255, numericPrecision := none, numericScale := none,
           isNullable := true, columnDefault := none },
         { name := "budget", ordinal := 3, dataType := "numeric", charMaxLength := none,
           numericPrecision := some 16, numericScale := some 3, isNullable := true,
           columnDefault := none },
         { name := "age", ordinal := 4, dataType := "smallint", charMaxLength := none,
           numericPrecision := none, numericScale := none, isNullable := true,
           columnDefault := none },
         { name := "child", ordinal := 5, dataType := "bigint", charMaxLength := none,
           numericPrecision := none, numericScale := none, isNullable := true,
           columnDefault := none }]
      else []
    primaryKey := fun t =>
      if t = "metalize_users" then
        some ("metalize_users_pkey", [{ ordinal := 1, column := "id" }])
      else none
    uniqueGroups := fun t =>
      if t = "metalize_users" then
        [("metalize_unique_constraint",
          [{ ordinal := 1, column := "name" }, { ordinal := 2, column := "age" }])]
      else []
    indexGroups := fun t =>
      if t = "metalize_users" then
        [("index_name",
          [{ ordinal := 1, column := "id" }, { ordinal := 2, column := "child" }])]
      else []
    foreignKeyGroups := fun t =>
      if t = "metalize_users" then
        [("metalize_foreign_key_constraint",
          [{ ordinal := 1, column := "id", refTable := "metalize_users_child",
             refColumn := "parent", matchCode := "s", updateCode := "r",
             deleteCode := "c" },
           { ordinal := 2, column := "child", refTable := "metalize_users_child",
             refColumn := "id", matchCode := "s", updateCode := "r",
             deleteCode := "c" }])]
      else []
    checkRows := fun t =>
      if t = "metalize_users" then
        [{ name := "metalize_check_constraint", condition := "age > 21" }]
      else []
    sequenceRow := fun s =>
      if s = "metalize_users_seq" then
        some { startValue := 100, minValue := 100, maxValue := 9999,
               incrementBy := 1, cycle := true }
      else none }

/-- The foreign key the reader produces for the fixture table: declared
with on update restrict on delete cascade, columns paired by key-sequence
ordinal (src/unnamed/part_000 lines 66-67 and 111-121). -/
def usersForeignKey : ForeignKey :=
  { name := "metalize_foreign_key_constraint"
    columns := ["id", "child"]
    matchType := MatchType.simple
    onDelete := ActionType.cascade
    onUpdate := ActionType.restrict
    references := { table := "metalize_users_child", columns := ["parent", "id"] } }

/-- The name column of the fixture table as the reader produces it: a
character type whose details carry a length and no precision or scale
(src/unnamed/part_000 lines 96-101). -/
def usersNameColumn : Column :=
  { name := "name", type := "character varying"
    details := { type := "character varying", length := some 255 }
    nullable := true, default := none }

/-- The table metadata the reader produces for the fixture table. -/
def usersMeta : TableMetadata :=
  { columns :=
      [{ name := "id", type := "bigint", details := { type := "bigint" },
         nullable := false, default := none },
       { name := "name", type := "character varying",
         details := { type := "character varying", length := some 255 },
         nullable := true, default := none },
       { name := "budget", type := "numeric",
         details := { type := "numeric", precision := some 16, scale := some 3 },
         nullable := true, default := none },
       { name := "age", type := "smallint", details := { type := "smallint" },
         nullable := true, default := none },
       { name := "child", type := "bigint", details := { type := "bigint" },
         nullable := true, default := none }]
    primaryKey := some { name := "metalize_users_pkey", columns := ["id"] }
    unique := [{ name := "metalize_unique_constraint", columns := ["name", "age"] }]
    indexes := [{ name := "index_name", columns := ["id", "child"] }]
    foreignKeys := [usersForeignKey]
    checks := some [{ name := "metalize_check_constraint", condition := "age > 21" }] }

/-- The full read result for the fixture table request. -/
def usersRes : ReadResult :=
  { tables := [("metalize_users", some usersMeta)], sequences := [] }

/-- A foreign-key row group whose raw update-action code the postgres
adapter does not recognize. -/
def badActionGroup : String × List RawForeignKeyRow :=
  ("bad_fk",
   [{ ordinal := 1, column := "id", refTable := "other", refColumn := "id",
      matchCode := "s", updateCode := "x", deleteCode := "c" }])

/-- A catalog holding a table whose foreign key carries the unrecognizable
raw update-action code. -/
def badActionDb : Database :=
  { emptyDb with
    columnRows := fun t =>
      if t = "metalize_users" then
        [{ name := "id", ordinal := 1, dataType := "bigint", charMaxLength := none,
           numericPrecision := none, numericScale := none, isNullable := false,
           columnDefault := none }]
      else []
    foreignKeyGroups := fun t =>
      if t = "metalize_users" then [badActionGroup] else [] }

/-- A foreign-key row group whose raw update code is recognized but whose
raw delete-action code the postgres adapter does not recognize. -/
def badDeleteGroup : String × List RawForeignKeyRow :=
  ("bad_fk_delete",
   [{ ordinal := 1, column := "id", refTable := "other", refColumn := "id",
      matchCode := "s", updateCode := "r", deleteCode := "x" }])

/-- A catalog holding a table whose foreign key carries the unrecognizable
raw delete-action code. -/
def badDeleteDb : Database :=
  { emptyDb with
    columnRows := fun t =>
      if t = "metalize_users" then
        [{ name := "id", ordinal := 1, dataType := "bigint", charMaxLength := none,
           numericPrecision := none, numericScale := none, isNullable := false,
           columnDefault := none }]
      else []
    foreignKeyGroups := fun t =>
      if t = "metalize_users" then [badDeleteGroup] else [] }

/-- The read result for a request naming one missing table and one missing
sequence against the fixture catalog. -/
def missingRes : ReadResult :=
  { tables := [("metalize_missing", none)]
    sequences := [("metalize_missing_seq", none)] }

/-! ### Helper lemmas -/

theorem perm_sortByKey {α : Type} (key : α → Nat) (l : List α) :
    (sortByKey key l).Perm l :=
  List.perm_insertionSort _ l

theorem mem_sortByKey {α : Type} (key : α → Nat) {a : α} {l : List α} :
    a ∈ sortByKey key l ↔ a ∈ l :=
  (perm_sortByKey key l).mem_iff

theorem sorted_sortByKey {α : Type} (key : α → Nat) (l : List α) :
    List.Sorted (ordinalLe key) (sortByKey key l) :=
  List.sorted_insertionSort _ l

theorem sortByKey_eq_nil {α : Type} (key : α → Nat) {l : List α} :
    sortByKey key l = [] ↔ l = [] := by
  constructor
  · intro h
    have hp := (perm_sortByKey key l).symm
    rw [h] at hp
    exact List.Perm.eq_nil hp
  · intro h
    subst h
    rfl

theorem lookupName_eq_none {β : Type} (n : String) :
    ∀ l : List (String × β), n ∉ l.map Prod.fst → lookupName n l = none
  | [], _ => rfl
  | p :: rest, h => by
    simp only [List.map, List.mem_cons, not_or] at h
    rw [lookupName, if_neg (fun he => h.1 he.symm)]
    exact lookupName_eq_none n rest h.2

theorem readTablesList_cons_ok (d : Dialect) (db : Database) (n : String)
    (rest : List String) (entries : List (String × Option TableMetadata))
    (h : readTablesList d db (n :: rest) = Except.ok entries) :
    ∃ tm tail, readTable d db n = Except.ok tm ∧
      readTablesList d db rest = Except.ok tail ∧
      entries = (n, tm) :: tail := by
  simp only [readTablesList] at h
  cases hre : readTable d db n with
  | error e => rw [hre] at h; simp at h
  | ok tm =>
    cases hrt : readTablesList d db rest with
    | error e => rw [hre, hrt] at h; simp at h
    | ok tail =>
      rw [hre, hrt] at h
      injection h with h
      exact ⟨tm, tail, rfl, rfl, h.symm⟩

theorem readTablesList_keys (d : Dialect) (db : Database) :
    ∀ (names : List String) (entries : List (String × Option TableMetadata)),
      readTablesList d db names = Except.ok entries →
      entries.map Prod.fst = names
  | [], entries, h => by
    simp only [readTablesList] at h
    injection h with h
    rw [← h]
    rfl
  | n :: rest, entries, h => by
    obtain ⟨tm, tail, _, hrt, hent⟩ := readTablesList_cons_ok d db n rest entries h
    subst hent
    simp only [List.map]
    rw [readTablesList_keys d db rest tail hrt]

theorem readTablesList_lookup (d : Dialect) (db : Database) :
    ∀ (names : List String) (entries : List (String × Option TableMetadata))
      (n : String) (v : Option TableMetadata),
      readTablesList d db names = Except.ok entries →
      lookupName n entries = some v →
      readTable d db n = Except.ok v
  | [], entries, n, v, h, hl => by
    simp only [readTablesList] at h
    injection h with h
    rw [← h] at hl
    simp [lookupName] at hl
  | m :: rest, entries, n, v, h, hl => by
    obtain ⟨tm, tail, hre, hrt, hent⟩ := readTablesList_cons_ok d db m rest entries h
    subst hent
    by_cases hmn : m = n
    · subst hmn
      rw [lookupName, if_pos rfl] at hl
      injection hl with hl
      rw [← hl]
      exact hre
    · rw [lookupName, if_neg hmn] at hl
      exact readTablesList_lookup d db rest tail n v hrt hl

theorem readTablesList_lookup_mem (d : Dialect) (db : Database) :
    ∀ (names : List String) (entries : List (String × Option TableMetadata))
      (n : String),
      readTablesList d db names = Except.ok entries → n ∈ names →
      ∃ v, readTable d db n = Except.ok v ∧ lookupName n entries = some v
  | [], _, n, _, hn => absurd hn (List.not_mem_nil n)
  | m :: rest, entries, n, h, hn => by
    obtain ⟨tm, tail, hre, hrt, hent⟩ := readTablesList_cons_ok d db m rest entries h
    subst hent
    by_cases hmn : m = n
    · subst hmn
      exact ⟨tm, hre, by rw [lookupName, if_pos rfl]⟩
    · have hnr : n ∈ rest := by
        rcases List.mem_cons.mp hn with he | hr
        · exact absurd he.symm hmn
        · exact hr
      obtain ⟨v, hv, hl⟩ := readTablesList_lookup_mem d db rest tail n hrt hnr
      exact ⟨v, hv, by rw [lookupName, if_neg hmn]; exact hl⟩

theorem readSequencesList_keys (db : Database) :
    ∀ names : List String, (readSequencesList db names).map Prod.fst = names
  | [] => rfl
  | m :: rest => by
    have ih := readSequencesList_keys db rest
    simp only [readSequencesList, List.map] at ih ⊢
    rw [ih]

theorem readSequencesList_lookup_mem (db : Database) :
    ∀ (names : List String) (n : String), n ∈ names →
      lookupName n (readSequencesList db names) =
        some ((db.sequenceRow n).map parseSequence)
  | [], n, hn => absurd hn (List.not_mem_nil n)
  | m :: rest, n, hn => by
    simp only [readSequencesList, List.map]
    by_cases hmn : m = n
    · subst hmn
      rw [lookupName, if_pos rfl]
    · have hnr : n ∈ rest := by
        rcases List.mem_cons.mp hn with he | hr
        · exact absurd he.symm hmn
        · exact hr
      rw [lookupName, if_neg hmn]
      exact readSequencesList_lookup_mem db rest n hnr

theorem read_ok_parts (d : Dialect) (db : Database) (opts : ReadOptions)
    (res : ReadResult) (h : read d db opts = Except.ok res) :
    readTablesList d db opts.tables = Except.ok res.tables ∧
    res.sequences = readSequencesList db opts.sequences := by
  unfold read at h
  cases ht : readTablesList d db opts.tables with
  | error e => rw [ht] at h; simp at h
  | ok ts =>
    rw [ht] at h
    injection h with h
    subst h
    exact ⟨rfl, rfl⟩

theorem readTable_ok_some (d : Dialect) (db : Database) (t : String)
    (tm : TableMetadata) (h : readTable d db t = Except.ok (some tm)) :
    db.columnRows t ≠ [] ∧ assembleTable d db t = Except.ok tm := by
  unfold readTable at h
  by_cases he : (db.columnRows t).isEmpty = true
  · rw [if_pos he] at h
    simp at h
  · rw [if_neg he] at h
    refine ⟨fun hnil => he (by rw [hnil]; rfl), ?_⟩
    cases ha : assembleTable d db t with
    | error e => rw [ha] at h; simp at h
    | ok tm2 =>
      rw [ha] at h
      injection h with h
      injection h with h
      rw [h]

theorem readTable_ok_assemble (d : Dialect) (db : Database) (t : String)
    (v : Option TableMetadata) (h : readTable d db t = Except.ok v)
    (hne : db.columnRows t ≠ []) :
    ∃ tm, assembleTable d db t = Except.ok tm := by
  unfold readTable at h
  have he : (db.columnRows t).isEmpty = false := by
    cases hcr : db.columnRows t with
    | nil => exact absurd hcr hne
    | cons a l => rfl
  rw [he] at h
  simp only [Bool.false_eq_true, if_false] at h
  cases ha : assembleTable d db t with
  | error e => rw [ha] at h; simp at h
  | ok tm => exact ⟨tm, rfl⟩

theorem assembleTable_ok_parts (d : Dialect) (db : Database) (t : String)
    (tm : TableMetadata) (h : assembleTable d db t = Except.ok tm) :
    assembleForeignKeys d (db.foreignKeyGroups t) = Except.ok tm.foreignKeys ∧
    tm.columns = (sortByKey RawColumnRow.ordinal (db.columnRows t)).map parseColumn ∧
    tm.primaryKey = assemblePrimaryKey (db.primaryKey t) ∧
    tm.unique = assembleIndexes (db.uniqueGroups t) ∧
    tm.indexes = assembleIndexes (db.indexGroups t) ∧
    tm.checks = (if checkSupport d = true then
      some ((db.checkRows t).map parseCheck) else none) := by
  unfold assembleTable at h
  cases hf : assembleForeignKeys d (db.foreignKeyGroups t) with
  | error e => rw [hf] at h; simp at h
  | ok fks =>
    rw [hf] at h
    injection h with h
    subst h
    exact ⟨rfl, rfl, rfl, rfl, rfl, rfl⟩

theorem parseAction_ok_mem (d : Dialect) (raw : String) (a : ActionType)
    (h : parseAction d raw = Except.ok a) :
    raw ∈ recognizedActionCodes d := by
  cases d with
  | postgres =>
    by_cases h1 : raw = "c"
    · simp [recognizedActionCodes, h1]
    by_cases h2 : raw = "r"
    · simp [recognizedActionCodes, h2]
    by_cases h3 : raw = "a"
    · simp [recognizedActionCodes, h3]
    exfalso
    simp only [parseAction, if_neg h1, if_neg h2, if_neg h3] at h
    exact Except.noConfusion h
  | mysql =>
    by_cases h1 : raw = "CASCADE"
    · simp [recognizedActionCodes, h1]
    by_cases h2 : raw = "RESTRICT"
    · simp [recognizedActionCodes, h2]
    by_cases h3 : raw = "NO ACTION"
    · simp [recognizedActionCodes, h3]
    exfalso
    simp only [parseAction, if_neg h1, if_neg h2, if_neg h3] at h
    exact Except.noConfusion h

theorem parseAction_error_of_not_mem (d : Dialect) (raw : String)
    (h : raw ∉ recognizedActionCodes d) :
    ∃ msg, parseAction d raw = Except.error msg := by
  cases d with
  | postgres =>
    simp only [recognizedActionCodes, List.mem_cons, List.not_mem_nil,
      or_false, not_or] at h
    refine ⟨"unrecognized referential action code: " ++ raw, ?_⟩
    simp only [parseAction]
    rw [if_neg h.1, if_neg h.2.1, if_neg h.2.2]
  | mysql =>
    simp only [recognizedActionCodes, List.mem_cons, List.not_mem_nil,
      or_false, not_or] at h
    refine ⟨"unrecognized referential action code: " ++ raw, ?_⟩
    simp only [parseAction]
    rw [if_neg h.1, if_neg h.2.1, if_neg h.2.2]

theorem assembleForeignKey_ok_parts (d : Dialect) (cname : String)
    (rows : List RawForeignKeyRow) (fk : ForeignKey)
    (h : assembleForeignKey d cname rows = Except.ok fk) :
    ∃ first rest,
      sortByKey RawForeignKeyRow.ordinal rows = first :: rest ∧
      parseAction d first.updateCode = Except.ok fk.onUpdate ∧
      parseAction d first.deleteCode = Except.ok fk.onDelete ∧
      fk.name = cname ∧
      fk.columns = (first :: rest).map RawForeignKeyRow.column ∧
      fk.references =
        { table := first.refTable
          columns := (first :: rest).map RawForeignKeyRow.refColumn } := by
  unfold assembleForeignKey at h
  cases hs : sortByKey RawForeignKeyRow.ordinal rows with
  | nil =>
    rw [hs] at h
    exact Except.noConfusion h
  | cons first rest =>
    rw [hs] at h
    simp only [assembleForeignKeySorted] at h
    cases hu : parseAction d first.updateCode with
    | error e =>
      rw [hu] at h
      cases hd : parseAction d first.deleteCode with
      | error e2 => rw [hd] at h; exact Except.noConfusion h
      | ok onD => rw [hd] at h; exact Except.noConfusion h
    | ok onU =>
      rw [hu] at h
      cases hd : parseAction d first.deleteCode with
      | error e =>
        rw [hd] at h
        exact Except.noConfusion h
      | ok onD =>
        rw [hd] at h
        injection h with h
        subst h
        exact ⟨first, rest, rfl, hu, hd, rfl, rfl, rfl⟩

theorem assembleForeignKeys_mem (d : Dialect) :
    ∀ (gs : List (String × List RawForeignKeyRow)) (fks : List ForeignKey)
      (fk : ForeignKey),
      assembleForeignKeys d gs = Except.ok fks → fk ∈ fks →
      ∃ g, g ∈ gs ∧ assembleForeignKey d g.1 g.2 = Except.ok fk
  | [], fks, fk, h, hm => by
    simp only [assembleForeignKeys] at h
    injection h with h
    rw [← h] at hm
    exact absurd hm (List.not_mem_nil fk)
  | g :: gs, fks, fk, h, hm => by
    simp only [assembleForeignKeys] at h
    by_cases hge : g.2.isEmpty = true
    · rw [if_pos hge] at h
      obtain ⟨g2, hg2, hok⟩ := assembleForeignKeys_mem d gs fks fk h hm
      exact ⟨g2, List.mem_cons_of_mem g hg2, hok⟩
    · rw [if_neg hge] at h
      cases h1 : assembleForeignKey d g.1 g.2 with
      | error e => rw [h1] at h; simp at h
      | ok fk1 =>
        cases h2 : assembleForeignKeys d gs with
        | error e => rw [h1, h2] at h; simp at h
        | ok rest =>
          rw [h1, h2] at h
          injection h with h
          rw [← h] at hm
          rcases List.mem_cons.mp hm with he | hm2
          · subst he
            exact ⟨g, List.mem_cons_self g gs, h1⟩
          · obtain ⟨g2, hg2, hok⟩ := assembleForeignKeys_mem d gs rest fk h2 hm2
            exact ⟨g2, List.mem_cons_of_mem g hg2, hok⟩

theorem assembleForeignKeys_ok_group (d : Dialect) :
    ∀ (gs : List (String × List RawForeignKeyRow)) (fks : List ForeignKey)
      (g : String × List RawForeignKeyRow),
      assembleForeignKeys d gs = Except.ok fks → g ∈ gs → g.2 ≠ [] →
      ∃ fk, assembleForeignKey d g.1 g.2 = Except.ok fk
  | [], _, g, _, hg, _ => absurd hg (List.not_mem_nil g)
  | g1 :: gs, fks, g, h, hg, hne => by
    simp only [assembleForeignKeys] at h
    have hgeF : ∀ gx : String × List RawForeignKeyRow, gx.2 ≠ [] →
        gx.2.isEmpty = false := by
      intro gx hx
      cases hcr : gx.2 with
      | nil => exact absurd hcr hx
      | cons a l => rfl
    rcases List.mem_cons.mp hg with he | hm
    · subst he
      rw [hgeF g hne] at h
      simp only [Bool.false_eq_true, if_false] at h
      cases h1 : assembleForeignKey d g.1 g.2 with
      | error e => rw [h1] at h; simp at h
      | ok fk1 => exact ⟨fk1, rfl⟩
    · by_cases hge : g1.2.isEmpty = true
      · rw [if_pos hge] at h
        exact assembleForeignKeys_ok_group d gs fks g h hm hne
      · rw [if_neg hge] at h
        cases h1 : assembleForeignKey d g1.1 g1.2 with
        | error e => rw [h1] at h; simp at h
        | ok fk1 =>
          cases h2 : assembleForeignKeys d gs with
          | error e => rw [h1, h2] at h; simp at h
          | ok rest => exact assembleForeignKeys_ok_group d gs rest g h2 hm hne

theorem assembleIndex_columns_nonempty (g : String × List RawIndexRow)
    (h : g.2 ≠ []) : (assembleIndex g).columns ≠ [] := by
  simp only [assembleIndex]
  intro hnil
  rw [List.map_eq_nil_iff] at hnil
  exact h ((sortByKey_eq_nil RawIndexRow.ordinal).mp hnil)

theorem assembleIndex_columns_subset (g : String × List RawIndexRow)
    (names : List String) (h : ∀ r ∈ g.2, r.column ∈ names) :
    ∀ c ∈ (assembleIndex g).columns, c ∈ names := by
  intro c hc
  simp only [assembleIndex, List.mem_map] at hc
  obtain ⟨r, hr, hrc⟩ := hc
  rw [← hrc]
  exact h r ((mem_sortByKey RawIndexRow.ordinal).mp hr)

theorem assembleIndexes_mem (gs : List (String × List RawIndexRow))
    (ix : Index) (h : ix ∈ assembleIndexes gs) :
    ∃ g, g ∈ gs ∧ g.2 ≠ [] ∧ ix = assembleIndex g := by
  simp only [assembleIndexes, List.mem_map, List.mem_filter] at h
  obtain ⟨g, ⟨hg, hne⟩, hix⟩ := h
  refine ⟨g, hg, ?_, hix.symm⟩
  intro hnil
  rw [hnil] at hne
  simp at hne

theorem mem_assembled_column_names (db : Database) (t : String) (x : String)
    (hx : x ∈ colNames db t) :
    x ∈ ((sortByKey RawColumnRow.ordinal (db.columnRows t)).map parseColumn).map
      Column.name := by
  simp only [colNames, List.mem_map] at hx
  obtain ⟨r, hr, hrx⟩ := hx
  simp only [List.mem_map]
  exact ⟨parseColumn r, ⟨r, (mem_sortByKey RawColumnRow.ordinal).mpr hr, rfl⟩, hrx⟩

theorem parseColumnType_shape (r : RawColumnRow) :
    ((parseColumnType r).length = none ∧ (parseColumnType r).precision = none ∧
      (parseColumnType r).scale = none) ∨
    ((parseColumnType r).length.isSome = true ∧ (parseColumnType r).precision = none ∧
      (parseColumnType r).scale = none) ∨
    ((parseColumnType r).length = none ∧ (parseColumnType r).precision.isSome = true ∧
      (parseColumnType r).scale.isSome = true) := by
  cases hc : r.charMaxLength with
  | some l =>
    right; left
    simp [parseColumnType, hc]
  | none =>
    cases hp : r.numericPrecision with
    | some p =>
      right; right
      simp [parseColumnType, hc, hp]
    | none =>
      left
      simp [parseColumnType, hc, hp]

/-! ### Claim theorems -/

/-- C6: a sequence created with start 100, min 100, max 9999, increment 1
and cycle yields sequence metadata whose numeric bounds are the strings
100, 100, 9999 and 1, and whose cycle flag is the boolean true. -/
theorem read_sequence_scenario :
    read Dialect.postgres usersDb { sequences := ["metalize_users_seq"] } =
      Except.ok
        { tables := []
          sequences := [("metalize_users_seq",
            some { start := "100", min := "100", max := "9999",
                   increment := "1", cycle := true })] } := rfl

/-- C7 (code bug evidence): the repository test module releases the session
through endConnection, and the modelled session makes endConnection
single-use and makes query fail deterministically after it, but the Metalize
class declaration in src/types/index.d.ts names the method end, not
endConnection. -/
theorem endConnection_contract_and_declaration :
    "endConnection" ∈ metalizeMethodsUsedInTests ∧
    "endConnection" ∉ metalizeDeclaredMethods ∧
    "end" ∈ metalizeDeclaredMethods ∧
    Session.endConnection { closed := false } = Except.ok { closed := true } ∧
    Session.endConnection { closed := true } =
      Except.error "Connection already ended" ∧
    Session.query { closed := false } = Except.ok () ∧
    Session.query { closed := true } = Except.error "Closed session" :=
  ⟨by decide, by decide, by decide, rfl, rfl, rfl, rfl⟩

/-- C8: for the fixture foreign key declared with on update restrict on
delete cascade, the read result reports onUpdate RESTRICT and onDelete
CASCADE in the canonical action set. -/
theorem read_foreignKey_actions_scenario :
    read Dialect.postgres usersDb { tables := ["metalize_users"] } =
      Except.ok usersRes ∧
    lookupName "metalize_users" usersRes.tables = some (some usersMeta) ∧
    usersMeta.foreignKeys.map ForeignKey.onUpdate = [ActionType.restrict] ∧
    usersMeta.foreignKeys.map ForeignKey.onDelete = [ActionType.cascade] :=
  ⟨rfl, rfl, rfl, rfl⟩

/-- C1: every requested table name missing from the database appears in the
result tables mapping as a key with an absent value, and likewise for
requested sequence names, while a name that was not requested is missing
from the mapping altogether, so not-found is distinguishable from
not-requested. -/
theorem read_missing_requested_present_absent (d : Dialect) (db : Database)
    (opts : ReadOptions) (res : ReadResult)
    (hok : read d db opts = Except.ok res) :
    (∀ n ∈ opts.tables, db.columnRows n = [] →
      lookupName n res.tables = some none) ∧
    (∀ n ∈ opts.sequences, db.sequenceRow n = none →
      lookupName n res.sequences = some none) ∧
    (∀ n, n ∉ opts.tables → lookupName n res.tables = none) ∧
    (∀ n, n ∉ opts.sequences → lookupName n res.sequences = none) := by
  obtain ⟨ht, hs⟩ := read_ok_parts d db opts res hok
  refine ⟨?_, ?_, ?_, ?_⟩
  · intro n hn hmiss
    obtain ⟨v, hv, hl⟩ := readTablesList_lookup_mem d db opts.tables res.tables n ht hn
    have hnone : readTable d db n = Except.ok none := by
      unfold readTable
      rw [hmiss]
      rfl
    have hveq := hnone.symm.trans hv
    injection hveq with hveq
    rw [← hveq] at hl
    exact hl
  · intro n hn hmiss
    rw [hs, readSequencesList_lookup_mem db opts.sequences n hn, hmiss]
    rfl
  · intro n hn
    apply lookupName_eq_none
    rw [readTablesList_keys d db opts.tables res.tables ht]
    exact hn
  · intro n hn
    rw [hs]
    apply lookupName_eq_none
    rw [readSequencesList_keys db opts.sequences]
    exact hn

/-- Witness for C1: a concrete request naming a missing table and a missing
sequence against the fixture catalog. -/
theorem read_missing_requested_present_absent_witness :
    read Dialect.postgres usersDb
        { tables := ["metalize_missing"], sequences := ["metalize_missing_seq"] } =
      Except.ok missingRes ∧
    lookupName "metalize_missing" missingRes.tables = some none ∧
    lookupName "metalize_missing_seq" missingRes.sequences = some none :=
  ⟨rfl,
   (read_missing_requested_present_absent Dialect.postgres usersDb
      { tables := ["metalize_missing"], sequences := ["metalize_missing_seq"] }
      missingRes rfl).1 "metalize_missing" (by decide) rfl,
   (read_missing_requested_present_absent Dialect.postgres usersDb
      { tables := ["metalize_missing"], sequences := ["metalize_missing_seq"] }
      missingRes rfl).2.1 "metalize_missing_seq" (by decide) rfl⟩

/-- C2: every foreign key in a table metadata produced by read has as many
source columns as referenced columns, at least one of each, and both lists
are drawn from the same raw key-part rows ordered by key-sequence ordinal,
so position i of columns corresponds to position i of
references.columns. -/
theorem read_foreignKey_columns_aligned (d : Dialect) (db : Database)
    (opts : ReadOptions) (res : ReadResult) (n : String) (tm : TableMetadata)
    (fk : ForeignKey)
    (hok : read d db opts = Except.ok res)
    (hn : lookupName n res.tables = some (some tm))
    (hfk : fk ∈ tm.foreignKeys) :
    fk.columns.length = fk.references.columns.length ∧
    0 < fk.columns.length ∧
    ∃ rows, (fk.name, rows) ∈ db.foreignKeyGroups n ∧
      ∃ sorted, List.Perm sorted rows ∧
        List.Sorted (ordinalLe RawForeignKeyRow.ordinal) sorted ∧
        fk.columns = sorted.map RawForeignKeyRow.column ∧
        fk.references.columns = sorted.map RawForeignKeyRow.refColumn := by
  obtain ⟨ht, _⟩ := read_ok_parts d db opts res hok
  have hrt := readTablesList_lookup d db opts.tables res.tables n (some tm) ht hn
  obtain ⟨_, hasm⟩ := readTable_ok_some d db n tm hrt
  obtain ⟨hfks, _, _, _, _, _⟩ := assembleTable_ok_parts d db n tm hasm
  obtain ⟨g, hg, hgok⟩ := assembleForeignKeys_mem d (db.foreignKeyGroups n)
    tm.foreignKeys fk hfks hfk
  obtain ⟨first, rest, hsrt, _, _, hname, hcolsfk, hreffk⟩ :=
    assembleForeignKey_ok_parts d g.1 g.2 fk hgok
  have hrefcols : fk.references.columns =
      (first :: rest).map RawForeignKeyRow.refColumn := by
    rw [hreffk]
  refine ⟨?_, ?_, g.2, ?_, first :: rest, ?_, ?_, hcolsfk, hrefcols⟩
  · rw [hcolsfk, hrefcols]
    simp
  · rw [hcolsfk]
    simp
  · rw [hname]
    exact Prod.mk.eta.symm ▸ hg
  · rw [← hsrt]
    exact perm_sortByKey RawForeignKeyRow.ordinal g.2
  · rw [← hsrt]
    exact sorted_sortByKey RawForeignKeyRow.ordinal g.2

/-- Witness for C2 at the fixture foreign key. -/
theorem read_foreignKey_columns_aligned_witness :
    read Dialect.postgres usersDb { tables := ["metalize_users"] } =
      Except.ok usersRes ∧
    lookupName "metalize_users" usersRes.tables = some (some usersMeta) ∧
    usersForeignKey ∈ usersMeta.foreignKeys ∧
    (usersForeignKey.columns.length =
        usersForeignKey.references.columns.length ∧
      0 < usersForeignKey.columns.length ∧
      ∃ rows, (usersForeignKey.name, rows) ∈
          usersDb.foreignKeyGroups "metalize_users" ∧
        ∃ sorted, List.Perm sorted rows ∧
          List.Sorted (ordinalLe RawForeignKeyRow.ordinal) sorted ∧
          usersForeignKey.columns = sorted.map RawForeignKeyRow.column ∧
          usersForeignKey.references.columns =
            sorted.map RawForeignKeyRow.refColumn) :=
  ⟨rfl, rfl, by decide,
   read_foreignKey_columns_aligned Dialect.postgres usersDb
     { tables := ["metalize_users"] } usersRes "metalize_users" usersMeta
     usersForeignKey rfl rfl (by decide)⟩

/-- C3: the details of every column in a table metadata produced by read
take exactly one of the three shapes bare type, type with length, or type
with precision and scale, and never carry a length together with a
precision or scale. -/
theorem read_column_details_exclusive (d : Dialect) (db : Database)
    (opts : ReadOptions) (res : ReadResult) (n : String) (tm : TableMetadata)
    (c : Column)
    (hok : read d db opts = Except.ok res)
    (hn : lookupName n res.tables = some (some tm))
    (hc : c ∈ tm.columns) :
    ((c.details.length = none ∧ c.details.precision = none ∧
        c.details.scale = none) ∨
      (c.details.length.isSome = true ∧ c.details.precision = none ∧
        c.details.scale = none) ∨
      (c.details.length = none ∧ c.details.precision.isSome = true ∧
        c.details.scale.isSome = true)) ∧
    ¬(c.details.length.isSome = true ∧
      (c.details.precision.isSome = true ∨ c.details.scale.isSome = true)) := by
  obtain ⟨ht, _⟩ := read_ok_parts d db opts res hok
  have hrt := readTablesList_lookup d db opts.tables res.tables n (some tm) ht hn
  obtain ⟨_, hasm⟩ := readTable_ok_some d db n tm hrt
  obtain ⟨_, hcols, _, _, _, _⟩ := assembleTable_ok_parts d db n tm hasm
  rw [hcols] at hc
  obtain ⟨r, _, hcr⟩ := List.mem_map.mp hc
  have hdet : c.details = parseColumnType r := by
    rw [← hcr]
    rfl
  rw [hdet]
  refine ⟨parseColumnType_shape r, ?_⟩
  rcases parseColumnType_shape r with ⟨h1, h2, h3⟩ | ⟨h1, h2, h3⟩ | ⟨h1, h2, h3⟩ <;>
    simp [h1, h2, h3]

/-- Witness for C3 at the fixture name column, whose details carry a
length. -/
theorem read_column_details_exclusive_witness :
    read Dialect.postgres usersDb { tables := ["metalize_users"] } =
      Except.ok usersRes ∧
    lookupName "metalize_users" usersRes.tables = some (some usersMeta) ∧
    usersNameColumn ∈ usersMeta.columns ∧
    (((usersNameColumn.details.length = none ∧
        usersNameColumn.details.precision = none ∧
        usersNameColumn.details.scale = none) ∨
      (usersNameColumn.details.length.isSome = true ∧
        usersNameColumn.details.precision = none ∧
        usersNameColumn.details.scale = none) ∨
      (usersNameColumn.details.length = none ∧
        usersNameColumn.details.precision.isSome = true ∧
        usersNameColumn.details.scale.isSome = true)) ∧
    ¬(usersNameColumn.details.length.isSome = true ∧
      (usersNameColumn.details.precision.isSome = true ∨
        usersNameColumn.details.scale.isSome = true))) :=
  ⟨rfl, rfl, by decide,
   read_column_details_exclusive Dialect.postgres usersDb
     { tables := ["metalize_users"] } usersRes "metalize_users" usersMeta
     usersNameColumn rfl rfl (by decide)⟩

/-- C4: the checks field of a table metadata produced by read is present
(possibly as an empty sequence) exactly when the dialect supports a native
check-constraint catalog, and omitted entirely otherwise. -/
theorem read_checks_presence (d : Dialect) (db : Database)
    (opts : ReadOptions) (res : ReadResult) (n : String) (tm : TableMetadata)
    (hok : read d db opts = Except.ok res)
    (hn : lookupName n res.tables = some (some tm)) :
    (checkSupport d = true → tm.checks.isSome = true) ∧
    (checkSupport d = false → tm.checks = none) := by
  obtain ⟨ht, _⟩ := read_ok_parts d db opts res hok
  have hrt := readTablesList_lookup d db opts.tables res.tables n (some tm) ht hn
  obtain ⟨_, hasm⟩ := readTable_ok_some d db n tm hrt
  obtain ⟨_, _, _, _, _, hchecks⟩ := assembleTable_ok_parts d db n tm hasm
  constructor
  · intro h
    rw [hchecks, if_pos h]
    rfl
  · intro h
    rw [hchecks, h]
    simp

/-- Witness for C4 at the postgres fixture table, whose checks field is
present. -/
theorem read_checks_presence_witness :
    read Dialect.postgres usersDb { tables := ["metalize_users"] } =
      Except.ok usersRes ∧
    lookupName "metalize_users" usersRes.tables = some (some usersMeta) ∧
    ((checkSupport Dialect.postgres = true → usersMeta.checks.isSome = true) ∧
      (checkSupport Dialect.postgres = false → usersMeta.checks = none)) :=
  ⟨rfl, rfl,
   read_checks_presence Dialect.postgres usersDb
     { tables := ["metalize_users"] } usersRes "metalize_users" usersMeta
     rfl rfl⟩

/-- C5: an existing table read from a catalog whose key-part rows reference
declared columns has a non-empty column list, and its primary key, unique
constraints, other indexes and foreign keys all have non-empty column lists
drawn from the names of its columns. -/
theorem read_table_structure_invariants (d : Dialect) (db : Database)
    (opts : ReadOptions) (res : ReadResult) (n : String) (tm : TableMetadata)
    (hok : read d db opts = Except.ok res)
    (hn : lookupName n res.tables = some (some tm))
    (hpk : ∀ r ∈ pkRows db n, r.column ∈ colNames db n)
    (hu : ∀ g ∈ db.uniqueGroups n, ∀ r ∈ g.2, r.column ∈ colNames db n)
    (hi : ∀ g ∈ db.indexGroups n, ∀ r ∈ g.2, r.column ∈ colNames db n)
    (hf : ∀ g ∈ db.foreignKeyGroups n, ∀ r ∈ g.2, r.column ∈ colNames db n) :
    tm.columns ≠ [] ∧
    (∀ pk, tm.primaryKey = some pk →
      pk.columns ≠ [] ∧ ∀ c ∈ pk.columns, c ∈ tm.columns.map Column.name) ∧
    (∀ ix ∈ tm.unique,
      ix.columns ≠ [] ∧ ∀ c ∈ ix.columns, c ∈ tm.columns.map Column.name) ∧
    (∀ ix ∈ tm.indexes,
      ix.columns ≠ [] ∧ ∀ c ∈ ix.columns, c ∈ tm.columns.map Column.name) ∧
    (∀ fk ∈ tm.foreignKeys,
      fk.columns ≠ [] ∧ ∀ c ∈ fk.columns, c ∈ tm.columns.map Column.name) := by
  obtain ⟨ht, _⟩ := read_ok_parts d db opts res hok
  have hrt := readTablesList_lookup d db opts.tables res.tables n (some tm) ht hn
  obtain ⟨hne, hasm⟩ := readTable_ok_some d db n tm hrt
  obtain ⟨hfks, hcols, hpke, hue, hie, _⟩ := assembleTable_ok_parts d db n tm hasm
  have hnames : ∀ x, x ∈ colNames db n → x ∈ tm.columns.map Column.name := by
    intro x hx
    rw [hcols]
    exact mem_assembled_column_names db n x hx
  refine ⟨?_, ?_, ?_, ?_, ?_⟩
  · rw [hcols]
    intro hnil
    rw [List.map_eq_nil_iff] at hnil
    exact hne ((sortByKey_eq_nil RawColumnRow.ordinal).mp hnil)
  · intro pk hpk2
    rw [hpke] at hpk2
    cases hg : db.primaryKey n with
    | none =>
      rw [hg] at hpk2
      simp only [assemblePrimaryKey] at hpk2
      exact Option.noConfusion hpk2
    | some p =>
      rw [hg] at hpk2
      simp only [assemblePrimaryKey] at hpk2
      by_cases hpe : p.2.isEmpty = true
      · rw [if_pos hpe] at hpk2
        exact Option.noConfusion hpk2
      · rw [if_neg hpe] at hpk2
        injection hpk2 with hpk2
        have hpne : p.2 ≠ [] := by
          intro hnil
          exact hpe (by rw [hnil]; rfl)
        have hrows : ∀ r ∈ p.2, r.column ∈ colNames db n := by
          intro r hr
          apply hpk
          unfold pkRows
          rw [hg]
          exact hr
        constructor
        · rw [← hpk2]
          exact assembleIndex_columns_nonempty p hpne
        · intro c hc
          rw [← hpk2] at hc
          exact hnames c
            (assembleIndex_columns_subset p (colNames db n) hrows c hc)
  · intro ix hix
    rw [hue] at hix
    obtain ⟨g, hg, hgne, hixe⟩ := assembleIndexes_mem (db.uniqueGroups n) ix hix
    subst hixe
    exact ⟨assembleIndex_columns_nonempty g hgne,
      fun c hc => hnames c
        (assembleIndex_columns_subset g (colNames db n) (hu g hg) c hc)⟩
  · intro ix hix
    rw [hie] at hix
    obtain ⟨g, hg, hgne, hixe⟩ := assembleIndexes_mem (db.indexGroups n) ix hix
    subst hixe
    exact ⟨assembleIndex_columns_nonempty g hgne,
      fun c hc => hnames c
        (assembleIndex_columns_subset g (colNames db n) (hi g hg) c hc)⟩
  · intro fk hfk
    obtain ⟨g, hg, hgok⟩ := assembleForeignKeys_mem d (db.foreignKeyGroups n)
      tm.foreignKeys fk hfks hfk
    obtain ⟨first, rest, hsrt, _, _, _, hcolsfk, _⟩ :=
      assembleForeignKey_ok_parts d g.1 g.2 fk hgok
    constructor
    · rw [hcolsfk]
      simp
    · intro c hc
      rw [hcolsfk] at hc
      obtain ⟨r, hr, hrc⟩ := List.mem_map.mp hc
      have hrg : r ∈ g.2 := by
        apply (mem_sortByKey RawForeignKeyRow.ordinal).mp
        rw [hsrt]
        exact hr
      rw [← hrc]
      exact hnames r.column (hf g hg r hrg)

/-- Witness for C5 at the fixture table, whose catalog rows reference only
declared columns. -/
theorem read_table_structure_invariants_witness :
    read Dialect.postgres usersDb { tables := ["metalize_users"] } =
      Except.ok usersRes ∧
    lookupName "metalize_users" usersRes.tables = some (some usersMeta) ∧
    (∀ r ∈ pkRows usersDb "metalize_users",
      r.column ∈ colNames usersDb "metalize_users") ∧
    (∀ g ∈ usersDb.uniqueGroups "metalize_users", ∀ r ∈ g.2,
      r.column ∈ colNames usersDb "metalize_users") ∧
    (∀ g ∈ usersDb.indexGroups "metalize_users", ∀ r ∈ g.2,
      r.column ∈ colNames usersDb "metalize_users") ∧
    (∀ g ∈ usersDb.foreignKeyGroups "metalize_users", ∀ r ∈ g.2,
      r.column ∈ colNames usersDb "metalize_users") ∧
    (usersMeta.columns ≠ [] ∧
      (∀ pk, usersMeta.primaryKey = some pk →
        pk.columns ≠ [] ∧
          ∀ c ∈ pk.columns, c ∈ usersMeta.columns.map Column.name) ∧
      (∀ ix ∈ usersMeta.unique,
        ix.columns ≠ [] ∧
          ∀ c ∈ ix.columns, c ∈ usersMeta.columns.map Column.name) ∧
      (∀ ix ∈ usersMeta.indexes,
        ix.columns ≠ [] ∧
          ∀ c ∈ ix.columns, c ∈ usersMeta.columns.map Column.name) ∧
      (∀ fk ∈ usersMeta.foreignKeys,
        fk.columns ≠ [] ∧
          ∀ c ∈ fk.columns, c ∈ usersMeta.columns.map Column.name)) :=
  ⟨rfl, rfl, by decide, by decide, by decide, by decide,
   read_table_structure_invariants Dialect.postgres usersDb
     { tables := ["metalize_users"] } usersRes "metalize_users" usersMeta
     rfl rfl (by decide) (by decide) (by decide) (by decide)⟩

/-- C9: a raw referential-action code the active dialect adapter cannot map
into the canonical set, whether it stands in the update position or in the
delete position, makes the whole read call fail with an error rather than
being silently replaced by a default action. -/
theorem read_unrecognized_action_code_fails (d : Dialect) (db : Database)
    (opts : ReadOptions) (n : String) (g : String × List RawForeignKeyRow)
    (hn : n ∈ opts.tables)
    (hcols : db.columnRows n ≠ [])
    (hg : g ∈ db.foreignKeyGroups n)
    (hgne : g.2 ≠ [])
    (hbad : ∀ r ∈ g.2, r.updateCode ∉ recognizedActionCodes d ∨
      r.deleteCode ∉ recognizedActionCodes d) :
    ∃ msg, read d db opts = Except.error msg := by
  cases hr : read d db opts with
  | error e => exact ⟨e, rfl⟩
  | ok res =>
    exfalso
    obtain ⟨ht, _⟩ := read_ok_parts d db opts res hr
    obtain ⟨v, hv, _⟩ := readTablesList_lookup_mem d db opts.tables res.tables n ht hn
    obtain ⟨tm, hasm⟩ := readTable_ok_assemble d db n v hv hcols
    obtain ⟨hfks, _, _, _, _, _⟩ := assembleTable_ok_parts d db n tm hasm
    obtain ⟨fk, hfkok⟩ := assembleForeignKeys_ok_group d (db.foreignKeyGroups n)
      tm.foreignKeys g hfks hg hgne
    obtain ⟨first, rest, hsrt, hupd, hdel, _, _, _⟩ :=
      assembleForeignKey_ok_parts d g.1 g.2 fk hfkok
    have hfirst : first ∈ g.2 := by
      apply (mem_sortByKey RawForeignKeyRow.ordinal).mp
      rw [hsrt]
      exact List.mem_cons_self first rest
    rcases hbad first hfirst with hb | hb
    · exact hb (parseAction_ok_mem d first.updateCode fk.onUpdate hupd)
    · exact hb (parseAction_ok_mem d first.deleteCode fk.onDelete hdel)

/-- Witness for C9 at two concrete catalogs: one whose foreign key carries
the unrecognizable raw code x in the update position, one carrying it in
the delete position. -/
theorem read_unrecognized_action_code_fails_witness :
    "metalize_users" ∈ (ReadOptions.mk ["metalize_users"] []).tables ∧
    badActionDb.columnRows "metalize_users" ≠ [] ∧
    badActionGroup ∈ badActionDb.foreignKeyGroups "metalize_users" ∧
    badActionGroup.2 ≠ [] ∧
    (∀ r ∈ badActionGroup.2,
      r.updateCode ∉ recognizedActionCodes Dialect.postgres ∨
        r.deleteCode ∉ recognizedActionCodes Dialect.postgres) ∧
    (∃ msg, read Dialect.postgres badActionDb (ReadOptions.mk ["metalize_users"] []) =
      Except.error msg) ∧
    badDeleteDb.columnRows "metalize_users" ≠ [] ∧
    badDeleteGroup ∈ badDeleteDb.foreignKeyGroups "metalize_users" ∧
    badDeleteGroup.2 ≠ [] ∧
    (∀ r ∈ badDeleteGroup.2,
      r.updateCode ∉ recognizedActionCodes Dialect.postgres ∨
        r.deleteCode ∉ recognizedActionCodes Dialect.postgres) ∧
    (∃ msg, read Dialect.postgres badDeleteDb (ReadOptions.mk ["metalize_users"] []) =
      Except.error msg) :=
  ⟨by decide, by decide, by decide, by decide, by decide,
   read_unrecognized_action_code_fails Dialect.postgres badActionDb
     (ReadOptions.mk ["metalize_users"] []) "metalize_users" badActionGroup
     (by decide) (by decide) (by decide) (by decide) (by decide),
   by decide, by decide, by decide, by decide,
   read_unrecognized_action_code_fails Dialect.postgres badDeleteDb
     (ReadOptions.mk ["metalize_users"] []) "metalize_users" badDeleteGroup
     (by decide) (by decide) (by decide) (by decide) (by decide)⟩

/-- C10: the dialect option has exactly the two values postgres and
mysql; the test setup selects the postgres quoting function exactly for
postgres, and for the other dialect the quoting function is the identity on
strings. -/
theorem dialect_closed_and_quoting :
    (∀ d : Dialect, d = Dialect.postgres ∨ d = Dialect.mysql) ∧
    (∀ s : String, setupQuote Dialect.mysql s = s) ∧
    setupQuote Dialect.postgres = quoteObjectName :=
  ⟨fun d => by cases d
               · exact Or.inl rfl
               · exact Or.inr rfl,
   fun s => rfl, rfl⟩

end Metalize
